import Mathlib

/-!
Verification of the document-extraction pipeline of the Digital-Faxing-Simulation
repository against its specification.

The embedding below translates the Python sources
(utils/encryption_utils.py, utils/db.py, utils/ocr_utils.py) into Lean.
Conventions of the embedding:

* Python byte strings are `List Nat` (each element a byte value `< 256`);
  Python text strings that only flow through encryption/search are likewise
  represented by their byte sequences, while strings compared by the template
  classifier are `List Char`.
* The AES-256 block cipher provided by the external `cryptography` library is a
  parameter pair `E D : List Nat → List Nat` operating on 16-byte blocks
  (the library is outside the repository; theorems assume only that `D`
  inverts `E` on 16-byte blocks of bytes, that `E` preserves the block length,
  and that `E` produces bytes).
* `os.urandom(16)` is modelled by passing the generated IV as an argument.
* Python exceptions are an explicit error type `PyExc`; fallible functions
  return `Except PyExc _`.  A Python function that can return `None` or a
  value returns `Option _`.
-/

/-- Exceptions that can cross the boundaries of the embedded code.
`binasciiError` is the exception class raised by `base64.b64decode`;
`valueError` is raised by the cipher layer (bad IV size, ciphertext length not
a multiple of the block length) and by the PKCS7 unpadder.
The constructors `decryptionError` and `storeError` are modelled from the spec:
the spec names dedicated `DecryptionError` and `StoreError` kinds, but the
repository defines no such exception classes; the constructors exist so that
the spec's statements can be compared against the embedded code. -/
inductive PyExc where
  | binasciiError (msg : String)
  | valueError (msg : String)
  | decryptionError (msg : String)
  | storeError (msg : String)
deriving DecidableEq, Repr

/-- True exactly on the spec-modelled `DecryptionError` kind. -/
def PyExc.isDecryptionError : PyExc → Bool
  | .decryptionError _ => true
  | _ => false

/-- True exactly on the spec-modelled `StoreError` kind. -/
def PyExc.isStoreError : PyExc → Bool
  | .storeError _ => true
  | _ => false

/-- True on exceptions of the external libraries (`binascii.Error`, `ValueError`). -/
def PyExc.isLibraryError : PyExc → Bool
  | .binasciiError _ => true
  | .valueError _ => true
  | _ => false

/-! ## Byte-level primitives shared by the cipher embedding -/

/-- Bytewise XOR of two byte strings (the CBC chaining operation). -/
def xorBytes (a b : List Nat) : List Nat :=
  List.zipWith Nat.xor a b

/-- Helper of `toBlocks`: accumulates the current (reversed) partial block. -/
def chunkAux (cur : List Nat) : List Nat → List (List Nat)
  | [] => if cur = [] then [] else [cur.reverse]
  | b :: rest =>
    if cur.length + 1 = 16 then
      (b :: cur).reverse :: chunkAux [] rest
    else
      chunkAux (b :: cur) rest

/-- Splits a byte string into consecutive 16-byte blocks (the block iteration
performed internally by the CBC mode of the `cryptography` library). -/
def toBlocks (l : List Nat) : List (List Nat) :=
  chunkAux [] l

/-- PKCS7 padding with a 128-bit block size, as `padding.PKCS7(BLOCK_SIZE)`:
append `p` copies of the byte `p`, where `p = 16 - len % 16` (so `1 ≤ p ≤ 16`). -/
def pkcs7Pad (data : List Nat) : List Nat :=
  let p := 16 - data.length % 16
  data ++ List.replicate p p

/-- PKCS7 unpadding, as the library unpadder: the input must be a nonempty
multiple of the block size whose last byte `p` satisfies `1 ≤ p ≤ 16`,
`p ≤ len`, and whose last `p` bytes all equal `p`; result drops those bytes.
Returns `none` where the library raises `ValueError`. -/
def pkcs7Unpad (bs : List Nat) : Option (List Nat) :=
  let p := bs.getLastD 0
  if bs.length % 16 ≠ 0 then none
  else if p = 0 ∨ 16 < p ∨ bs.length < p then none
  else if bs.drop (bs.length - p) = List.replicate p p then some (bs.take (bs.length - p))
  else none

/-- CBC encryption over a list of plaintext blocks: each block is XORed with
the previous ciphertext block (initially the IV) and passed through the block
cipher `E`. -/
def cbcEncBlocks (E : List Nat → List Nat) : List Nat → List (List Nat) → List (List Nat)
  | _, [] => []
  | prev, b :: bs =>
    let c := E (xorBytes prev b)
    c :: cbcEncBlocks E c bs

/-- CBC decryption over a list of ciphertext blocks: each block is passed
through the inverse block cipher `D` and XORed with the previous ciphertext
block (initially the IV). -/
def cbcDecBlocks (D : List Nat → List Nat) : List Nat → List (List Nat) → List (List Nat)
  | _, [] => []
  | prev, c :: cs => xorBytes prev (D c) :: cbcDecBlocks D c cs

/-! ## Base64 (the `base64.b64encode` / `base64.b64decode` pair) -/

/-- The standard base64 alphabet, indexed by a sextet value `< 64`. -/
def b64Char (n : Nat) : Char :=
  if n < 26 then Char.ofNat (65 + n)
  else if n < 52 then Char.ofNat (97 + (n - 26))
  else if n < 62 then Char.ofNat (48 + (n - 52))
  else if n = 62 then '+'
  else '/'

/-- Whether a character belongs to the standard base64 alphabet. -/
def isB64Char (c : Char) : Bool :=
  ('A' ≤ c && c ≤ 'Z') || ('a' ≤ c && c ≤ 'z') || ('0' ≤ c && c ≤ '9') || c = '+' || c = '/'

/-- Sextet value of a base64 alphabet character. -/
def b64Val (c : Char) : Nat :=
  if 'A' ≤ c && c ≤ 'Z' then c.toNat - 65
  else if 'a' ≤ c && c ≤ 'z' then c.toNat - 97 + 26
  else if '0' ≤ c && c ≤ '9' then c.toNat - 48 + 52
  else if c = '+' then 62
  else 63

/-- Base64 encoding of a byte string, three bytes at a time, with the
standard trailing padding. -/
def b64encode : List Nat → List Char
  | [] => []
  | [a] => [b64Char (a / 4), b64Char (a % 4 * 16), '=', '=']
  | [a, b] => [b64Char (a / 4), b64Char (a % 4 * 16 + b / 16), b64Char (b % 16 * 4), '=']
  | a :: b :: c :: rest =>
    b64Char (a / 4) :: b64Char (a % 4 * 16 + b / 16) ::
      b64Char (b % 16 * 4 + c / 64) :: b64Char (c % 64) :: b64encode rest

/-- Decodes a base64 data-character sequence (no padding characters) four
characters at a time, with a final group of two or three characters yielding
one or two bytes. -/
def decodeQuads : List Char → List Nat
  | a :: b :: c :: d :: rest =>
    (b64Val a * 4 + b64Val b / 16) :: (b64Val b % 16 * 16 + b64Val c / 4) ::
      (b64Val c % 4 * 64 + b64Val d) :: decodeQuads rest
  | [a, b] => [b64Val a * 4 + b64Val b / 16]
  | [a, b, c] => [b64Val a * 4 + b64Val b / 16, b64Val b % 16 * 16 + b64Val c / 4]
  | _ => []

/-- Whether a character is not the base64 padding character. -/
def notPad (c : Char) : Bool :=
  c != '='

/-- Base64 decoding, as `base64.b64decode` in its default non-strict mode:
characters outside the alphabet and outside the padding are discarded first;
then the padding must be exactly the amount that completes the final
four-character group, and a data length of one more than a multiple of four is
rejected.  Errors are `binascii.Error`. -/
def b64decode (token : List Char) : Except PyExc (List Nat) :=
  let filtered := token.filter (fun c => isB64Char c || c = '=')
  let dataChars := filtered.takeWhile notPad
  let padChars := filtered.dropWhile notPad
  if ¬ (padChars.all (fun c => c = '=')) then
    .error (.binasciiError "Discontinuous padding not allowed")
  else if dataChars.length % 4 = 1 then
    .error (.binasciiError "Invalid base64-encoded string")
  else if padChars.length ≠ (4 - dataChars.length % 4) % 4 then
    .error (.binasciiError "Incorrect padding")
  else
    .ok (decodeQuads dataChars)

/-! ## The cipher (utils/encryption_utils.py) -/

/-- Embedding of `encrypt_data` (encryption_utils.py, lines 19 to 31).
The plaintext is the UTF-8 byte sequence of the Python string (`data.encode()`),
with `none` standing for Python `None`; both `None` and the empty string are
falsy, so the function returns `None` for them without encrypting.  The fresh
`os.urandom(16)` IV is the argument `iv`, and the AES-256 encryptor of the
fixed process key is the block-cipher parameter `E`. -/
def encrypt_data (E : List Nat → List Nat) (iv : List Nat) (data : Option (List Nat)) :
    Option (List Char) :=
  match data with
  | none => none
  | some [] => none
  | some bytes =>
    let padded := pkcs7Pad bytes
    let ciphertext := (cbcEncBlocks E iv (toBlocks padded)).flatten
    some (b64encode (iv ++ ciphertext))

/-- Embedding of `decrypt_data` (encryption_utils.py, lines 33 to 47).
Falsy tokens (Python `None` or the empty string) map to `None`.  Otherwise the
token is base64-decoded (`binascii.Error` propagates), split as
`iv := raw[:16]`, `ciphertext := raw[16:]`; the library then raises
`ValueError` if the IV is not 16 bytes (at `modes.CBC(iv)`) or if the
ciphertext length is not a multiple of the block length (at `finalize`), and
the PKCS7 unpadder raises `ValueError` on invalid padding.  The AES decryptor
of the fixed key is the parameter `D`. -/
def decrypt_data (D : List Nat → List Nat) (token : Option (List Char)) :
    Except PyExc (Option (List Nat)) :=
  match token with
  | none => .ok none
  | some [] => .ok none
  | some tok => do
    let raw ← b64decode tok
    let iv := raw.take 16
    let ciphertext := raw.drop 16
    if iv.length ≠ 16 then
      .error (.valueError "Invalid IV size for CBC")
    else if ciphertext.length % 16 ≠ 0 then
      .error (.valueError "The length of the provided data is not a multiple of the block length")
    else
      match pkcs7Unpad (cbcDecBlocks D iv (toBlocks ciphertext)).flatten with
      | none => .error (.valueError "Invalid padding bytes")
      | some data => .ok (some data)

/-- The identity block cipher, used to instantiate the abstract AES parameters
in concrete evaluations. -/
def idBlock : List Nat → List Nat := fun b => b

/-- A concrete all-zero 16-byte IV. -/
def ivZero : List Nat := List.replicate 16 0

/-- A concrete 16-byte IV differing from `ivZero`. -/
def ivOne : List Nat := 1 :: List.replicate 15 0

/-! ## The document store (utils/db.py) -/

/-- A persisted row of the `fax_forms` table: `ocr_text` and `extracted_fields`
hold the encrypted tokens (`NULL` is `none`, and `encrypt_data` may itself
return `NULL`).  `created_at` is the insertion timestamp set by sqlite. -/
structure StoredRow where
  id : Nat
  filename : String
  ocr_text : Option (List Char)
  extracted_fields : Option (List Char)
  created_at : Nat
  external_fax_id : Option String
  fax_from_number : Option String
  fax_to_number : Option String
deriving DecidableEq, Repr

/-- The state of the sqlite database: the list of stored rows, in insertion
order. -/
abbrev FaxDB := List StoredRow

/-- A row as returned to callers of `get_form_by_id` / `get_all_forms`:
the two sensitive columns have been decrypted (plaintext byte strings). -/
structure FormRecord where
  id : Nat
  filename : String
  ocr_text : Option (List Nat)
  extracted_fields : Option (List Nat)
  created_at : Nat
  external_fax_id : Option String
  fax_from_number : Option String
  fax_to_number : Option String
deriving DecidableEq, Repr

/-- The decrypted view of a stored row, given the plaintexts of its two
sensitive columns. -/
def StoredRow.toRecord (r : StoredRow) (ocr fields : Option (List Nat)) : FormRecord :=
  { id := r.id, filename := r.filename, ocr_text := ocr, extracted_fields := fields,
    created_at := r.created_at, external_fax_id := r.external_fax_id,
    fax_from_number := r.fax_from_number, fax_to_number := r.fax_to_number }

/-- The rowid sqlite assigns to the next insert into `fax_forms`
(`INTEGER PRIMARY KEY AUTOINCREMENT`): one more than the largest id used. -/
def nextId (db : FaxDB) : Nat :=
  (db.foldr (fun r m => max r.id m) 0) + 1

/-- Embedding of `insert_form_data` (db.py, lines 71 to 93).
Both sensitive values are encrypted before the write (`fieldsJson` stands for
`json.dumps(fields)`, which is a nonempty string for every mapping); the two
fresh IVs of the two `encrypt_data` calls are `iv1`, `iv2`.  The sqlite write
either succeeds (`writeOk = true`), appending the row and returning
`cursor.lastrowid`, or raises; the bare `except Exception` catches every
exception, prints, and returns `None`, while the connection context manager
rolls the transaction back, leaving the database unchanged.  `created_at` is
the `CURRENT_TIMESTAMP` sqlite assigns. -/
def insert_form_data (E : List Nat → List Nat) (iv1 iv2 : List Nat) (writeOk : Bool)
    (db : FaxDB) (filename : String) (ocr_text : Option (List Nat)) (fieldsJson : List Nat)
    (created_at : Nat) (external_fax_id fax_from_number fax_to_number : Option String) :
    Except PyExc (Option Nat) × FaxDB :=
  let encrypted_ocr_text := encrypt_data E iv1 ocr_text
  let encrypted_fields_json_str := encrypt_data E iv2 (some fieldsJson)
  if writeOk then
    let row : StoredRow :=
      { id := nextId db, filename := filename, ocr_text := encrypted_ocr_text,
        extracted_fields := encrypted_fields_json_str, created_at := created_at,
        external_fax_id := external_fax_id, fax_from_number := fax_from_number,
        fax_to_number := fax_to_number }
    (.ok (some (nextId db)), db ++ [row])
  else
    (.ok none, db)

/-- Embedding of `get_form_by_id` (db.py, lines 96 to 118).
The `WHERE id = ?` lookup returns the row with the requested id (ids are
unique).  Both sensitive columns are then decrypted with no exception handler
around the `decrypt_data` calls, so a decryption failure propagates to the
caller.  A missing row yields `None`. -/
def get_form_by_id (D : List Nat → List Nat) (db : FaxDB) (form_id : Nat) :
    Except PyExc (Option FormRecord) :=
  match db.find? (fun r => r.id = form_id) with
  | none => .ok none
  | some row => do
    let decrypted_ocr_text ← decrypt_data D row.ocr_text
    let decrypted_extracted_fields ← decrypt_data D row.extracted_fields
    .ok (some (row.toRecord decrypted_ocr_text decrypted_extracted_fields))

/-- Descending insertion into a list sorted by `created_at` (newest first),
modelling sqlite ORDER BY created_at DESC. -/
def insertByCreatedDesc (r : StoredRow) : List StoredRow → List StoredRow
  | [] => [r]
  | x :: xs =>
    if x.created_at < r.created_at then r :: x :: xs
    else x :: insertByCreatedDesc r xs

/-- The rows of the database ordered by `created_at` descending. -/
def sortByCreatedDesc (db : FaxDB) : List StoredRow :=
  db.foldr insertByCreatedDesc []

/-- Decrypts the two sensitive columns of each row in turn, as the row loop of
`get_all_forms`; the first decryption failure propagates. -/
def decryptRows (D : List Nat → List Nat) : List StoredRow → Except PyExc (List FormRecord)
  | [] => .ok []
  | r :: rs => do
    let decrypted_ocr_text ← decrypt_data D r.ocr_text
    let decrypted_extracted_fields ← decrypt_data D r.extracted_fields
    let rest ← decryptRows D rs
    .ok (r.toRecord decrypted_ocr_text decrypted_extracted_fields :: rest)

/-- Embedding of `get_all_forms` (db.py, lines 120 to 140): all rows, newest
first, each with its sensitive columns decrypted (no exception handling). -/
def get_all_forms (D : List Nat → List Nat) (db : FaxDB) : Except PyExc (List FormRecord) :=
  decryptRows D (sortByCreatedDesc db)

/-- Contiguous-substring test, as the Python `in` operator on strings. -/
def isSubstr {α : Type} [DecidableEq α] (needle : List α) : List α → Bool
  | [] => needle.isEmpty
  | a :: hay => needle.isPrefixOf (a :: hay) || isSubstr needle hay

/-- ASCII lower-casing of one byte, as `str.lower` restricted to the ASCII
range (the embedding represents the stored texts by their byte sequences). -/
def pyLowerByte (b : Nat) : Nat :=
  if 65 ≤ b ∧ b ≤ 90 then b + 32 else b

/-- ASCII lower-casing of a byte string. -/
def pyLower (l : List Nat) : List Nat :=
  l.map pyLowerByte

/-- The per-record match test of `search_forms_by_keyword`: the lower-cased
keyword occurs in the lower-cased decrypted `ocr_text` or in the lower-cased
decrypted `extracted_fields` JSON text, an absent field reading as the empty
string. -/
def matchesKeyword (keyword_lower : List Nat) (f : FormRecord) : Bool :=
  isSubstr keyword_lower (pyLower (f.ocr_text.getD [])) ||
    isSubstr keyword_lower (pyLower (f.extracted_fields.getD []))

/-- Embedding of `search_forms_by_keyword` (db.py, lines 143 to 164): fetch
all forms decrypted, then keep those whose lower-cased `ocr_text` or
`extracted_fields` contains the lower-cased keyword. -/
def search_forms_by_keyword (D : List Nat → List Nat) (db : FaxDB) (keyword : List Nat) :
    Except PyExc (List FormRecord) := do
  let all_forms ← get_all_forms D db
  let keyword_lower := pyLower keyword
  .ok (all_forms.filter (fun f => matchesKeyword keyword_lower f))

/-! ## The content extractor and template classifier (utils/ocr_utils.py) -/

/-- Content returned by `extract_content_from_pdf`: either the raw PDF bytes
(for the Gemini PDF-vision path) or extracted text. -/
inductive Content where
  | bytes (b : List Nat)
  | text (t : String)
deriving DecidableEq, Repr

/-- The external collaborators of `extract_content_from_pdf`, passed as an
explicit oracle record: whether the file can be read (and its bytes), the
detail of a read failure, whether `genai.configure` succeeds, the result of
the Google Cloud Vision wrapper (`extract_text_from_pdf_google_vision`
catches every exception and returns `None` on failure), and the text produced
by the Tesseract path (`extract_text_from_pdf_tesseract`). -/
structure ExtractorEnv where
  fileBytes : Option (List Nat)
  readErrDetail : String
  geminiConfigureOk : Bool
  visionText : Option String
  tesseractText : String

/-- Embedding of `extract_content_from_pdf` (ocr_utils.py, lines 99 to 140).
`gemini_api_key_set` models the truthiness of the module-level
`GEMINI_API_KEY` (always true at runtime, since the module raises at import
when it is unset). -/
def extract_content_from_pdf (env : ExtractorEnv)
    (use_gemini_pdf use_google_vision : Bool) (gemini_api_key_set : Bool := true) :
    Content × String :=
  match env.fileBytes with
  | none => (.text ("Error reading PDF file: " ++ env.readErrDetail), "error_file_read")
  | some pdf_bytes =>
    if use_gemini_pdf && gemini_api_key_set && env.geminiConfigureOk then
      (.bytes pdf_bytes, "success")
    else if use_google_vision then
      match env.visionText with
      | some google_vision_text => (.text google_vision_text, "success_google_vision")
      | none => (.text env.tesseractText, "success_tesseract_fallback")
    else
      (.text env.tesseractText, "success")

/-- The statuses `extract_content_from_pdf` can return.  The spec names the
same tags generically: its `success_vision` is the source's
`success_google_vision` and its `success_ocr_fallback` is the source's
`success_tesseract_fallback` (and the spec's `error_vision` tag is listed but
never produced by the source, which always falls back). -/
def extractorStatuses : List String :=
  ["success", "success_google_vision", "success_tesseract_fallback", "error_file_read"]

/-- Embedding of the template-resolution step of
`extract_fields_from_text_or_pdf` (ocr_utils.py, lines 168 to 175): when the
declared template is the string `default` and the hint text is truthy, the
lower-cased hint is matched first against the provider-form keyword, then
against the two over-the-counter keywords; the first match rewrites the
template and no match leaves it unchanged.  Any other declared template
(in particular the specific known ones) ignores the hint. -/
def resolveTemplate (template : List Char) (template_hint_text : Option (List Char)) :
    List Char :=
  if template = "default".toList ∧ template_hint_text ≠ none ∧ template_hint_text ≠ some [] then
    let hint := (template_hint_text.getD []).map Char.toLower
    if isSubstr "provider fax form".toList hint then "provider_fax_form".toList
    else if isSubstr "over-the-counter".toList hint || isSubstr "otc".toList hint then
      "otc_fax_form".toList
    else template
  else template

/-! ## Proof-helper definitions -/

/-- The data characters (without padding) of `b64encode`. -/
def encData : List Nat → List Char
  | [] => []
  | [a] => [b64Char (a / 4), b64Char (a % 4 * 16)]
  | [a, b] => [b64Char (a / 4), b64Char (a % 4 * 16 + b / 16), b64Char (b % 16 * 4)]
  | a :: b :: c :: rest =>
    b64Char (a / 4) :: b64Char (a % 4 * 16 + b / 16) ::
      b64Char (b % 16 * 4 + c / 64) :: b64Char (c % 64) :: encData rest

/-- The number of trailing padding characters of `b64encode`. -/
def encPadLen : List Nat → Nat
  | [] => 0
  | [_] => 2
  | [_, _] => 1
  | _ :: _ :: _ :: rest => encPadLen rest

/-- The byte sequence of an ASCII string (the `str.encode` of the plaintexts
used in concrete instances). -/
def strBytes (s : String) : List Nat :=
  s.toList.map Char.toNat

/-! ## Lemmas about the base64 pair -/

/-- The base64 alphabet character of a sextet is in the alphabet, is not the
padding character, and decodes back to the sextet. -/
theorem b64Char_spec : ∀ n, n < 64 →
    isB64Char (b64Char n) = true ∧ b64Char n ≠ '=' ∧ b64Val (b64Char n) = n := by
  decide

/-- Every base64 encoding splits as data characters followed by padding. -/
theorem b64encode_eq_encData_append : ∀ bs : List Nat,
    b64encode bs = encData bs ++ List.replicate (encPadLen bs) '='
  | [] => rfl
  | [_] => rfl
  | [_, _] => rfl
  | a :: b :: c :: rest => by
    simp only [b64encode, encData, encPadLen, b64encode_eq_encData_append rest,
      List.cons_append]

/-- Data characters of an encoding of bytes are alphabet characters, never
padding. -/
theorem encData_mem : ∀ bs : List Nat, (∀ x ∈ bs, x < 256) →
    ∀ c ∈ encData bs, isB64Char c = true ∧ c ≠ '='
  | [], _ => by intro c hc; cases hc
  | [a], h => by
    have ha : a < 256 := h a (by simp)
    intro c hc
    simp only [encData, List.mem_cons, List.not_mem_nil, or_false] at hc
    rcases hc with rfl | rfl
    · exact ⟨(b64Char_spec _ (by omega)).1, (b64Char_spec _ (by omega)).2.1⟩
    · exact ⟨(b64Char_spec _ (by omega)).1, (b64Char_spec _ (by omega)).2.1⟩
  | [a, b], h => by
    have ha : a < 256 := h a (by simp)
    have hb : b < 256 := h b (by simp)
    intro c hc
    simp only [encData, List.mem_cons, List.not_mem_nil, or_false] at hc
    rcases hc with rfl | rfl | rfl
    · exact ⟨(b64Char_spec _ (by omega)).1, (b64Char_spec _ (by omega)).2.1⟩
    · exact ⟨(b64Char_spec _ (by omega)).1, (b64Char_spec _ (by omega)).2.1⟩
    · exact ⟨(b64Char_spec _ (by omega)).1, (b64Char_spec _ (by omega)).2.1⟩
  | a :: b :: c :: rest, h => by
    have ha : a < 256 := h a (by simp)
    have hb : b < 256 := h b (by simp)
    have hc2 : c < 256 := h c (by simp)
    intro d hd
    simp only [encData, List.mem_cons] at hd
    rcases hd with rfl | rfl | rfl | rfl | hd
    · exact ⟨(b64Char_spec _ (by omega)).1, (b64Char_spec _ (by omega)).2.1⟩
    · exact ⟨(b64Char_spec _ (by omega)).1, (b64Char_spec _ (by omega)).2.1⟩
    · exact ⟨(b64Char_spec _ (by omega)).1, (b64Char_spec _ (by omega)).2.1⟩
    · exact ⟨(b64Char_spec _ (by omega)).1, (b64Char_spec _ (by omega)).2.1⟩
    · exact encData_mem rest (fun x hx => h x (by simp [hx])) d hd

/-- The data-character count and padding count of an encoding fit together:
the padding completes the final four-character group and the data count is
never one more than a multiple of four. -/
theorem encData_length : ∀ bs : List Nat,
    (encData bs).length % 4 ≠ 1 ∧
      encPadLen bs = (4 - (encData bs).length % 4) % 4
  | [] => by simp [encData, encPadLen]
  | [_] => by simp [encData, encPadLen]
  | [_, _] => by simp [encData, encPadLen]
  | _ :: _ :: _ :: rest => by
    have ih := encData_length rest
    simp only [encData, encPadLen, List.length_cons]
    constructor
    · omega
    · omega

/-- Decoding the data characters of an encoding of bytes recovers the bytes. -/
theorem decodeQuads_encData : ∀ bs : List Nat, (∀ x ∈ bs, x < 256) →
    decodeQuads (encData bs) = bs
  | [], _ => rfl
  | [a], h => by
    have ha : a < 256 := h a (by simp)
    have h1 := (b64Char_spec (a / 4) (by omega)).2.2
    have h2 := (b64Char_spec (a % 4 * 16) (by omega)).2.2
    simp only [encData, decodeQuads, h1, h2]
    congr 1
    omega
  | [a, b], h => by
    have ha : a < 256 := h a (by simp)
    have hb : b < 256 := h b (by simp)
    have h1 := (b64Char_spec (a / 4) (by omega)).2.2
    have h2 := (b64Char_spec (a % 4 * 16 + b / 16) (by omega)).2.2
    have h3 := (b64Char_spec (b % 16 * 4) (by omega)).2.2
    simp only [encData, decodeQuads, h1, h2, h3]
    congr 1
    · omega
    · congr 1
      omega
  | a :: b :: c :: rest, h => by
    have ha : a < 256 := h a (by simp)
    have hb : b < 256 := h b (by simp)
    have hc : c < 256 := h c (by simp)
    have h1 := (b64Char_spec (a / 4) (by omega)).2.2
    have h2 := (b64Char_spec (a % 4 * 16 + b / 16) (by omega)).2.2
    have h3 := (b64Char_spec (b % 16 * 4 + c / 64) (by omega)).2.2
    have h4 := (b64Char_spec (c % 64) (by omega)).2.2
    have hrest := decodeQuads_encData rest (fun x hx => h x (by simp [hx]))
    simp only [encData, decodeQuads, h1, h2, h3, h4, hrest]
    congr 1
    · omega
    · congr 1
      · omega
      · congr 1
        omega

/-- Filtering to alphabet-or-padding characters leaves an encoding unchanged. -/
theorem filter_b64encode (bs : List Nat) (h : ∀ x ∈ bs, x < 256) :
    (b64encode bs).filter (fun c => isB64Char c || c = '=') = b64encode bs := by
  rw [List.filter_eq_self]
  intro c hc
  rw [b64encode_eq_encData_append] at hc
  rcases List.mem_append.1 hc with hd | hp
  · simp [(encData_mem bs h c hd).1]
  · have : c = '=' := List.eq_of_mem_replicate hp
    simp [this]

/-- Splitting a list of non-padding characters followed by padding at the
first padding character. -/
theorem takeWhile_dropWhile_pad (l : List Char) (n : Nat) (h : ∀ c ∈ l, c ≠ '=') :
    (l ++ List.replicate n '=').takeWhile notPad = l ∧
      (l ++ List.replicate n '=').dropWhile notPad = List.replicate n '=' := by
  induction l with
  | nil =>
    simp only [List.nil_append]
    cases n with
    | zero => simp [List.takeWhile, List.dropWhile]
    | succ m =>
      constructor
      · rw [List.replicate_succ, List.takeWhile_cons]
        simp [notPad]
      · rw [List.replicate_succ, List.dropWhile_cons]
        simp [notPad]
  | cons a t ih =>
    have ha : a ≠ '=' := h a (by simp)
    have iht := ih (fun c hc => h c (by simp [hc]))
    constructor
    · rw [List.cons_append, List.takeWhile_cons]
      simp [notPad, ha, iht.1]
    · rw [List.cons_append, List.dropWhile_cons]
      simp [notPad, ha, iht.2]

/-- Round trip of the base64 pair: decoding an encoding of bytes recovers the
bytes. -/
theorem b64decode_b64encode (bs : List Nat) (h : ∀ x ∈ bs, x < 256) :
    b64decode (b64encode bs) = .ok bs := by
  have hsplit := b64encode_eq_encData_append bs
  have hmem := encData_mem bs h
  have htw := takeWhile_dropWhile_pad (encData bs) (encPadLen bs)
    (fun c hc => (hmem c hc).2)
  have hlen := encData_length bs
  unfold b64decode
  rw [filter_b64encode bs h, hsplit]
  dsimp only
  rw [htw.1, htw.2]
  have hall : (List.replicate (encPadLen bs) '=').all (fun c => c = '=') = true := by
    rw [List.all_eq_true]
    intro c hc
    simp [List.eq_of_mem_replicate hc]
  rw [if_neg (by simp [hall])]
  rw [if_neg hlen.1]
  rw [if_neg (by simp [List.length_replicate, hlen.2])]
  rw [decodeQuads_encData bs h]

/-! ## Lemmas about block chunking, XOR and CBC -/

/-- Feeding a full 16-byte block (followed by anything) to the chunker emits
that block (prefixed by the pending partial block) and restarts. -/
theorem chunkAux_cons (cur : List Nat) (b : Nat) (rest : List Nat) :
    chunkAux cur (b :: rest) =
      if cur.length + 1 = 16 then (b :: cur).reverse :: chunkAux [] rest
      else chunkAux (b :: cur) rest :=
  rfl

/-- Feeding a full 16-byte block (followed by anything) to the chunker emits
that block (prefixed by the pending partial block) and restarts. -/
theorem chunkAux_peel : ∀ (b cur t : List Nat), b ≠ [] → cur.length + b.length = 16 →
    chunkAux cur (b ++ t) = (cur.reverse ++ b) :: chunkAux [] t
  | [], _, _, hb, _ => absurd rfl hb
  | [x], cur, t, _, hlen => by
    have h16 : cur.length + 1 = 16 := by simpa using hlen
    rw [List.cons_append, List.nil_append, chunkAux_cons, if_pos h16]
    simp
  | x :: y :: b, cur, t, _, hlen => by
    have hlen' : cur.length + 1 + (y :: b).length = 16 := by
      simp at hlen ⊢
      omega
    have hne : ¬ (cur.length + 1 = 16) := by
      simp at hlen'
      omega
    have ih := chunkAux_peel (y :: b) (x :: cur) t (by simp) (by simpa using hlen')
    rw [List.cons_append, chunkAux_cons, if_neg hne, ih]
    simp

/-- Chunking the concatenation of 16-byte blocks recovers the blocks. -/
theorem toBlocks_flatten : ∀ cs : List (List Nat), (∀ c ∈ cs, c.length = 16) →
    toBlocks cs.flatten = cs
  | [], _ => rfl
  | c :: cs, h => by
    have hc : c.length = 16 := h c (by simp)
    have hne : c ≠ [] := by
      intro h0
      rw [h0] at hc
      simp at hc
    have := chunkAux_peel c [] cs.flatten hne (by simpa using hc)
    simp only [List.flatten_cons, toBlocks] at this ⊢
    rw [this, List.reverse_nil, List.nil_append]
    exact congrArg (c :: ·) (toBlocks_flatten cs (fun x hx => h x (by simp [hx])))

/-- Chunking a byte string whose length is a multiple of 16 and flattening the
blocks gives the byte string back, and every block has length 16. -/
theorem toBlocks_spec (l : List Nat) (h : l.length % 16 = 0) :
    (toBlocks l).flatten = l ∧ ∀ b ∈ toBlocks l, b.length = 16 := by
  by_cases hl : l = []
  · subst hl
    constructor
    · rfl
    · intro b hb
      simp [toBlocks, chunkAux] at hb
  · have hpos : 0 < l.length := List.length_pos.2 hl
    have h16 : 16 ≤ l.length := by omega
    have htake : (l.take 16).length = 16 := by
      simp [List.length_take]
      omega
    have htne : l.take 16 ≠ [] := by
      intro h0
      rw [h0] at htake
      simp at htake
    have hpeel := chunkAux_peel (l.take 16) [] (l.drop 16) htne (by simpa using htake)
    rw [List.take_append_drop] at hpeel
    have hblocks : toBlocks l = l.take 16 :: toBlocks (l.drop 16) := by
      simpa [toBlocks] using hpeel
    have hdlen : (l.drop 16).length % 16 = 0 := by
      simp [List.length_drop]
      omega
    have ih := toBlocks_spec (l.drop 16) hdlen
    constructor
    · rw [hblocks, List.flatten_cons, ih.1, List.take_append_drop]
    · intro b hb
      rw [hblocks] at hb
      rcases List.mem_cons.1 hb with rfl | hb
      · exact htake
      · exact ih.2 b hb
termination_by l.length
decreasing_by simp [List.length_drop]; omega

/-- The length of a bytewise XOR. -/
theorem xorBytes_length (a b : List Nat) : (xorBytes a b).length = min a.length b.length := by
  rw [xorBytes, List.length_zipWith]

/-- XORing twice with the same equal-length mask is the identity. -/
theorem xorBytes_cancel : ∀ a b : List Nat, a.length = b.length →
    xorBytes a (xorBytes a b) = b
  | [], [], _ => rfl
  | [], _ :: _, h => by simp at h
  | _ :: _, [], h => by simp at h
  | x :: a, y :: b, h => by
    simp only [xorBytes, List.zipWith_cons_cons]
    have hx : x.xor (x.xor y) = y := Nat.xor_cancel_left x y
    rw [hx]
    exact congrArg (y :: ·) (xorBytes_cancel a b (by simpa using h))

/-- A bytewise XOR of bytes is made of bytes. -/
theorem xorBytes_bytes : ∀ a b : List Nat, (∀ x ∈ a, x < 256) → (∀ x ∈ b, x < 256) →
    ∀ x ∈ xorBytes a b, x < 256
  | [], _, _, _ => by intro x hx; simp [xorBytes] at hx
  | _ :: _, [], _, _ => by intro x hx; simp [xorBytes] at hx
  | a :: as, b :: bs, ha, hb => by
    intro x hx
    simp only [xorBytes, List.zipWith_cons_cons, List.mem_cons] at hx
    rcases hx with rfl | hx
    · have h1 : a < 2 ^ 8 := ha a (by simp)
      have h2 : b < 2 ^ 8 := hb b (by simp)
      exact Nat.xor_lt_two_pow h1 h2
    · exact xorBytes_bytes as bs (fun y hy => ha y (by simp [hy]))
        (fun y hy => hb y (by simp [hy])) x hx

/-- CBC decryption inverts CBC encryption, and the ciphertext blocks are
16-byte blocks of bytes, provided the block cipher pair is inverse,
length-preserving and byte-valued on 16-byte blocks of bytes. -/
theorem cbc_roundtrip (E D : List Nat → List Nat)
    (hInv : ∀ b, b.length = 16 → (∀ x ∈ b, x < 256) → D (E b) = b)
    (hLen : ∀ b, b.length = 16 → (∀ x ∈ b, x < 256) → (E b).length = 16)
    (hByte : ∀ b, b.length = 16 → (∀ x ∈ b, x < 256) → ∀ x ∈ E b, x < 256) :
    ∀ (bs : List (List Nat)) (prev : List Nat),
      (∀ b ∈ bs, b.length = 16 ∧ ∀ x ∈ b, x < 256) →
      prev.length = 16 → (∀ x ∈ prev, x < 256) →
      cbcDecBlocks D prev (cbcEncBlocks E prev bs) = bs ∧
        ∀ c ∈ cbcEncBlocks E prev bs, c.length = 16 ∧ ∀ x ∈ c, x < 256
  | [], prev, _, _, _ => by constructor <;> simp [cbcEncBlocks, cbcDecBlocks]
  | b :: bs, prev, hbs, hprev, hprevB => by
    have hb : b.length = 16 ∧ ∀ x ∈ b, x < 256 := hbs b (by simp)
    have hxlen : (xorBytes prev b).length = 16 := by
      rw [xorBytes_length, hprev, hb.1]
      simp
    have hxB : ∀ x ∈ xorBytes prev b, x < 256 := xorBytes_bytes prev b hprevB hb.2
    have hclen : (E (xorBytes prev b)).length = 16 := hLen _ hxlen hxB
    have hcB : ∀ x ∈ E (xorBytes prev b), x < 256 := hByte _ hxlen hxB
    have ih := cbc_roundtrip E D hInv hLen hByte bs (E (xorBytes prev b))
      (fun x hx => hbs x (by simp [hx])) hclen hcB
    constructor
    · simp only [cbcEncBlocks, cbcDecBlocks]
      rw [hInv _ hxlen hxB, xorBytes_cancel prev b (by rw [hprev, hb.1]), ih.1]
    · intro c hc
      simp only [cbcEncBlocks, List.mem_cons] at hc
      rcases hc with rfl | hc
      · exact ⟨hclen, hcB⟩
      · exact ih.2 c hc

/-! ## Lemmas about PKCS7 padding -/

/-- The padded length is a positive multiple of the block size. -/
theorem pkcs7Pad_length (data : List Nat) :
    (pkcs7Pad data).length = data.length + (16 - data.length % 16) := by
  simp [pkcs7Pad]

/-- Padding then unpadding recovers the data. -/
theorem pkcs7Unpad_pkcs7Pad (data : List Nat) : pkcs7Unpad (pkcs7Pad data) = some data := by
  set p := 16 - data.length % 16 with hp
  have hp1 : 1 ≤ p := by
    have := Nat.mod_lt data.length (by omega : 0 < 16)
    omega
  have hp16 : p ≤ 16 := by omega
  have hlen : (pkcs7Pad data).length = data.length + p := pkcs7Pad_length data
  have hmod : (pkcs7Pad data).length % 16 = 0 := by
    rw [hlen]
    omega
  have hlast : (pkcs7Pad data).getLastD 0 = p := by
    show (data ++ List.replicate p p).getLastD 0 = p
    rw [show p = (p - 1) + 1 from by omega, List.replicate_succ',
      show p - 1 + 1 = p from by omega, ← List.append_assoc]
    exact List.getLastD_concat _ _ _
  have hdrop : (pkcs7Pad data).drop ((pkcs7Pad data).length - p) = List.replicate p p := by
    show (data ++ List.replicate p p).drop _ = _
    rw [hlen, show data.length + p - p = data.length from by omega]
    exact List.drop_left data _
  have htake : (pkcs7Pad data).take ((pkcs7Pad data).length - p) = data := by
    show (data ++ List.replicate p p).take _ = _
    rw [hlen, show data.length + p - p = data.length from by omega]
    exact List.take_left data _
  unfold pkcs7Unpad
  rw [hlast]
  rw [if_neg (by omega)]
  rw [if_neg (by omega)]
  rw [if_pos hdrop, htake]

/-- The padded bytes are bytes when the data is. -/
theorem pkcs7Pad_bytes (data : List Nat) (h : ∀ x ∈ data, x < 256) :
    ∀ x ∈ pkcs7Pad data, x < 256 := by
  intro x hx
  rcases List.mem_append.1 hx with hd | hr
  · exact h x hd
  · have := List.eq_of_mem_replicate hr
    omega

/-- The padding always adds at least one byte. -/
theorem pkcs7Pad_ne_nil (data : List Nat) : pkcs7Pad data ≠ [] := by
  intro h0
  have := congrArg List.length h0
  rw [pkcs7Pad_length] at this
  simp at this
  omega

/-! ## The cipher round trip -/

/-- The concatenation of 16-byte blocks has length a multiple of 16. -/
theorem flatten_len16 : ∀ cs : List (List Nat), (∀ c ∈ cs, c.length = 16) →
    cs.flatten.length % 16 = 0
  | [], _ => rfl
  | c :: cs, h => by
    have hc : c.length = 16 := h c (by simp)
    have ih := flatten_len16 cs (fun x hx => h x (by simp [hx]))
    simp only [List.flatten_cons, List.length_append, hc]
    omega

/-- A base64 encoding of a nonempty byte string is nonempty. -/
theorem b64encode_ne_nil (a : Nat) (l : List Nat) : b64encode (a :: l) ≠ [] := by
  cases l with
  | nil => simp [b64encode]
  | cons b t => cases t <;> simp [b64encode]

/-- Unfolding of `encrypt_data` on a nonempty plaintext. -/
theorem encrypt_data_eq (E : List Nat → List Nat) (iv s : List Nat) (hs : s ≠ []) :
    encrypt_data E iv (some s) =
      some (b64encode (iv ++ (cbcEncBlocks E iv (toBlocks (pkcs7Pad s))).flatten)) := by
  obtain ⟨a, t, rfl⟩ := List.exists_cons_of_ne_nil hs
  rfl

/-- Decrypting an encryption recovers the plaintext, for any block cipher pair
that is inverse, length-preserving and byte-valued on 16-byte blocks of bytes,
any 16-byte IV, and any nonempty byte plaintext. -/
theorem decrypt_encrypt_ok (E D : List Nat → List Nat)
    (hInv : ∀ b, b.length = 16 → (∀ x ∈ b, x < 256) → D (E b) = b)
    (hLen : ∀ b, b.length = 16 → (∀ x ∈ b, x < 256) → (E b).length = 16)
    (hByte : ∀ b, b.length = 16 → (∀ x ∈ b, x < 256) → ∀ x ∈ E b, x < 256)
    (iv : List Nat) (hiv : iv.length = 16) (hivB : ∀ x ∈ iv, x < 256)
    (s : List Nat) (hs : s ≠ []) (hsB : ∀ x ∈ s, x < 256) :
    decrypt_data D (encrypt_data E iv (some s)) = .ok (some s) := by
  have hpadmod : (pkcs7Pad s).length % 16 = 0 := by
    rw [pkcs7Pad_length]
    have := Nat.mod_lt s.length (by omega : 0 < 16)
    omega
  have hspec := toBlocks_spec (pkcs7Pad s) hpadmod
  have hpadB := pkcs7Pad_bytes s hsB
  have hblocks : ∀ b ∈ toBlocks (pkcs7Pad s), b.length = 16 ∧ ∀ x ∈ b, x < 256 := by
    intro b hb
    refine ⟨hspec.2 b hb, fun x hx => hpadB x ?_⟩
    rw [← hspec.1]
    exact List.mem_flatten.2 ⟨b, hb, hx⟩
  have hcbc := cbc_roundtrip E D hInv hLen hByte (toBlocks (pkcs7Pad s)) iv hblocks hiv hivB
  have hcs16 : ∀ c ∈ cbcEncBlocks E iv (toBlocks (pkcs7Pad s)), c.length = 16 :=
    fun c hc => (hcbc.2 c hc).1
  have hcsB : ∀ x ∈ (cbcEncBlocks E iv (toBlocks (pkcs7Pad s))).flatten, x < 256 := by
    intro x hx
    obtain ⟨c, hc, hxc⟩ := List.mem_flatten.1 hx
    exact (hcbc.2 c hc).2 x hxc
  have hrawB : ∀ x ∈ iv ++ (cbcEncBlocks E iv (toBlocks (pkcs7Pad s))).flatten, x < 256 := by
    intro x hx
    rcases List.mem_append.1 hx with h1 | h2
    · exact hivB x h1
    · exact hcsB x h2
  rw [encrypt_data_eq E iv s hs]
  obtain ⟨c, rest, hcons⟩ :=
    List.exists_cons_of_ne_nil (l := b64encode (iv ++ (cbcEncBlocks E iv (toBlocks (pkcs7Pad s))).flatten))
      (by
        obtain ⟨a, t, hat⟩ := List.exists_cons_of_ne_nil
          (show iv ++ (cbcEncBlocks E iv (toBlocks (pkcs7Pad s))).flatten ≠ [] from by
            intro h0
            have := congrArg List.length h0
            simp [hiv] at this)
        rw [hat]
        exact b64encode_ne_nil a t)
  rw [hcons]
  have hdec : b64decode (c :: rest) = .ok (iv ++ (cbcEncBlocks E iv (toBlocks (pkcs7Pad s))).flatten) := by
    rw [← hcons]
    exact b64decode_b64encode _ hrawB
  show (b64decode (c :: rest)).bind _ = _
  rw [hdec]
  show (if _ ≠ 16 then _ else _) = _
  rw [List.take_left' hiv, List.drop_left' hiv]
  rw [if_neg (by rw [hiv]; simp)]
  rw [if_neg (by rw [flatten_len16 _ hcs16]; simp)]
  rw [toBlocks_flatten _ hcs16, hcbc.1, hspec.1, pkcs7Unpad_pkcs7Pad]

/-! ## Claim theorems -/

/-- C1: Cipher round-trip: for every nonempty plaintext `s` (of bytes),
`decrypt_data` of `encrypt_data` of `s` recovers `s`; and two `encrypt_data`
calls on the same `s` with distinct fresh 16-byte IVs produce distinct
tokens.  The AES pair `(E, D)` of the external library is assumed inverse,
length-preserving and byte-valued on 16-byte blocks of bytes. -/
theorem cipher_roundtrip_and_fresh_iv_distinct (E D : List Nat → List Nat)
    (hInv : ∀ b, b.length = 16 → (∀ x ∈ b, x < 256) → D (E b) = b)
    (hLen : ∀ b, b.length = 16 → (∀ x ∈ b, x < 256) → (E b).length = 16)
    (hByte : ∀ b, b.length = 16 → (∀ x ∈ b, x < 256) → ∀ x ∈ E b, x < 256)
    (iv iv' : List Nat) (hiv : iv.length = 16) (hivB : ∀ x ∈ iv, x < 256)
    (hiv' : iv'.length = 16) (hiv'B : ∀ x ∈ iv', x < 256)
    (s : List Nat) (hs : s ≠ []) (hsB : ∀ x ∈ s, x < 256) :
    decrypt_data D (encrypt_data E iv (some s)) = .ok (some s) ∧
      (iv ≠ iv' → encrypt_data E iv (some s) ≠ encrypt_data E iv' (some s)) := by
  refine ⟨decrypt_encrypt_ok E D hInv hLen hByte iv hiv hivB s hs hsB, ?_⟩
  intro hne heq
  have hpadmod : (pkcs7Pad s).length % 16 = 0 := by
    rw [pkcs7Pad_length]
    have := Nat.mod_lt s.length (by omega : 0 < 16)
    omega
  have hspec := toBlocks_spec (pkcs7Pad s) hpadmod
  have hpadB := pkcs7Pad_bytes s hsB
  have hblocks : ∀ b ∈ toBlocks (pkcs7Pad s), b.length = 16 ∧ ∀ x ∈ b, x < 256 := by
    intro b hb
    refine ⟨hspec.2 b hb, fun x hx => hpadB x ?_⟩
    rw [← hspec.1]
    exact List.mem_flatten.2 ⟨b, hb, hx⟩
  have hcbc := cbc_roundtrip E D hInv hLen hByte (toBlocks (pkcs7Pad s)) iv hblocks hiv hivB
  have hcbc' := cbc_roundtrip E D hInv hLen hByte (toBlocks (pkcs7Pad s)) iv' hblocks hiv' hiv'B
  have hrawB : ∀ x ∈ iv ++ (cbcEncBlocks E iv (toBlocks (pkcs7Pad s))).flatten, x < 256 := by
    intro x hx
    rcases List.mem_append.1 hx with h1 | h2
    · exact hivB x h1
    · obtain ⟨c, hc, hxc⟩ := List.mem_flatten.1 h2
      exact (hcbc.2 c hc).2 x hxc
  have hrawB' : ∀ x ∈ iv' ++ (cbcEncBlocks E iv' (toBlocks (pkcs7Pad s))).flatten, x < 256 := by
    intro x hx
    rcases List.mem_append.1 hx with h1 | h2
    · exact hiv'B x h1
    · obtain ⟨c, hc, hxc⟩ := List.mem_flatten.1 h2
      exact (hcbc'.2 c hc).2 x hxc
  rw [encrypt_data_eq E iv s hs, encrypt_data_eq E iv' s hs] at heq
  have henc := Option.some.inj heq
  have hraw : iv ++ (cbcEncBlocks E iv (toBlocks (pkcs7Pad s))).flatten
      = iv' ++ (cbcEncBlocks E iv' (toBlocks (pkcs7Pad s))).flatten := by
    have hd := b64decode_b64encode _ hrawB
    rw [henc, b64decode_b64encode _ hrawB'] at hd
    exact (Except.ok.inj hd).symm
  have : iv = iv' := by
    have h1 := congrArg (List.take 16) hraw
    rwa [List.take_left' hiv, List.take_left' hiv'] at h1
  exact hne this

/-- C1 witness: the round trip and IV-distinctness at the identity block
cipher, the concrete IVs `ivZero` and `ivOne`, and plaintext bytes of the
string `hi!`. -/
theorem cipher_roundtrip_and_fresh_iv_distinct_witness :
    decrypt_data idBlock (encrypt_data idBlock ivZero (some [104, 105, 33]))
        = .ok (some [104, 105, 33]) ∧
      encrypt_data idBlock ivZero (some [104, 105, 33])
        ≠ encrypt_data idBlock ivOne (some [104, 105, 33]) := by
  have h := cipher_roundtrip_and_fresh_iv_distinct idBlock idBlock
    (fun _ _ _ => rfl) (fun _ hb _ => hb) (fun _ _ hB => hB)
    ivZero ivOne (by decide) (by decide) (by decide) (by decide)
    [104, 105, 33] (by decide) (by decide)
  exact ⟨h.1, h.2 (by decide)⟩

/-- Every failure of `b64decode` is a `binascii.Error`. -/
theorem b64decode_error (l : List Char) (e : PyExc) (h : b64decode l = .error e) :
    ∃ m, e = .binasciiError m := by
  unfold b64decode at h
  dsimp only at h
  split at h
  · exact ⟨_, (Except.error.inj h).symm⟩
  · split at h
    · exact ⟨_, (Except.error.inj h).symm⟩
    · split at h
      · exact ⟨_, (Except.error.inj h).symm⟩
      · cases h

/-- C3 counterexample: the token `AB` cannot be base64-decoded, and
`decrypt_data` on it fails with the library exception `binascii.Error`
(the message the library uses is `Incorrect padding`), which is not a
`DecryptionError`: the repository defines no `DecryptionError` class. -/
theorem decrypt_data_error_not_decryptionError_cex :
    decrypt_data idBlock (some "AB".toList)
        = .error (.binasciiError "Incorrect padding") ∧
      (PyExc.binasciiError "Incorrect padding").isDecryptionError = false :=
  ⟨rfl, rfl⟩

/-- C3 (amended): whenever `decrypt_data` fails, the error it fails with is
one of the propagated library exceptions (`binascii.Error` from base64
decoding, `ValueError` from the cipher length checks or the unpadder), never
a dedicated `DecryptionError`, because the code wraps nothing. -/
theorem decrypt_data_error_taxonomy (D : List Nat → List Nat)
    (tok : Option (List Char)) (e : PyExc) (h : decrypt_data D tok = .error e) :
    e.isDecryptionError = false ∧ e.isLibraryError = true := by
  cases tok with
  | none => cases h
  | some l =>
    cases l with
    | nil => cases h
    | cons c rest =>
      have hb : decrypt_data D (some (c :: rest)) = (b64decode (c :: rest)).bind
          (fun raw =>
            if (raw.take 16).length ≠ 16 then
              .error (.valueError "Invalid IV size for CBC")
            else if (raw.drop 16).length % 16 ≠ 0 then
              .error (.valueError
                "The length of the provided data is not a multiple of the block length")
            else
              match pkcs7Unpad (cbcDecBlocks D (raw.take 16) (toBlocks (raw.drop 16))).flatten with
              | none => .error (.valueError "Invalid padding bytes")
              | some data => .ok (some data)) := rfl
      rw [hb] at h
      cases hdec : b64decode (c :: rest) with
      | error e2 =>
        rw [hdec] at h
        have he : e2 = e := Except.error.inj h
        obtain ⟨m, hm⟩ := b64decode_error _ _ hdec
        subst he
        rw [hm]
        exact ⟨rfl, rfl⟩
      | ok raw =>
        rw [hdec] at h
        show _ ∧ _
        dsimp only [Except.bind] at h
        split at h
        · rw [← Except.error.inj h]
          exact ⟨rfl, rfl⟩
        · split at h
          · rw [← Except.error.inj h]
            exact ⟨rfl, rfl⟩
          · split at h
            · rw [← Except.error.inj h]
              exact ⟨rfl, rfl⟩
            · cases h

/-- C3 (amended) witness: the taxonomy theorem applied at the concrete bad
token `AB` and its concrete `binascii.Error`. -/
theorem decrypt_data_error_taxonomy_witness :
    (PyExc.binasciiError "Incorrect padding").isDecryptionError = false ∧
      (PyExc.binasciiError "Incorrect padding").isLibraryError = true :=
  decrypt_data_error_taxonomy idBlock (some "AB".toList)
    (.binasciiError "Incorrect padding") rfl

/-- C2 counterexample: a stored record whose `ocr_text` token is valid but
whose `extracted_fields` token is corrupted (the non-base64 string `AB`):
`get_form_by_id` aborts with the propagated `binascii.Error` instead of
returning the record with an error marker in place of `extracted_fields`
(the valid `ocr_text` decrypts fine on its own, as the second conjunct
shows). -/
theorem get_form_by_id_no_error_marker_cex :
    get_form_by_id idBlock
        [{ id := 1, filename := "a.pdf",
           ocr_text := encrypt_data idBlock ivZero (some [104, 105]),
           extracted_fields := some "AB".toList, created_at := 0,
           external_fax_id := none, fax_from_number := none, fax_to_number := none }] 1
      = .error (.binasciiError "Incorrect padding") ∧
      decrypt_data idBlock (encrypt_data idBlock ivZero (some [104, 105]))
        = .ok (some [104, 105]) :=
  ⟨rfl, rfl⟩

/-- C2 (amended): a decryption failure on the `extracted_fields` column of a
found record makes `get_form_by_id` abort with that propagated exception —
the record (including its readable `ocr_text`) is not returned and no error
marker is produced, since the code has no exception handler around the
`decrypt_data` calls. -/
theorem get_form_by_id_decrypt_failure_propagates (D : List Nat → List Nat)
    (db : FaxDB) (fid : Nat) (row : StoredRow) (o : Option (List Nat)) (e : PyExc)
    (hfind : db.find? (fun r => r.id = fid) = some row)
    (hocr : decrypt_data D row.ocr_text = .ok o)
    (hfields : decrypt_data D row.extracted_fields = .error e) :
    get_form_by_id D db fid = .error e := by
  unfold get_form_by_id
  rw [hfind]
  show (decrypt_data D row.ocr_text).bind _ = _
  rw [hocr, hfields]
  rfl

/-- C2 (amended) witness: the propagation theorem at a concrete one-row
database whose `extracted_fields` token is corrupted. -/
theorem get_form_by_id_decrypt_failure_propagates_witness :
    get_form_by_id idBlock
        [{ id := 2, filename := "b.pdf",
           ocr_text := encrypt_data idBlock ivOne (some [119]),
           extracted_fields := some "AB".toList, created_at := 3,
           external_fax_id := none, fax_from_number := none, fax_to_number := none }] 2
      = .error (.binasciiError "Incorrect padding") :=
  get_form_by_id_decrypt_failure_propagates idBlock _ 2
    { id := 2, filename := "b.pdf",
      ocr_text := encrypt_data idBlock ivOne (some [119]),
      extracted_fields := some "AB".toList, created_at := 3,
      external_fax_id := none, fax_from_number := none, fax_to_number := none }
    (some [119]) (.binasciiError "Incorrect padding") rfl rfl rfl

/-- C4: search is exactly the case-insensitive substring filter: whenever the
decrypt-all step succeeds with the record list `all` (newest first),
`search_forms_by_keyword` returns precisely the records of `all` whose
lower-cased decrypted `ocr_text` or lower-cased decrypted `extracted_fields`
JSON text contains the lower-cased keyword as a substring. -/
theorem search_is_substring_filter (D : List Nat → List Nat) (db : FaxDB)
    (keyword : List Nat) (all : List FormRecord) (h : get_all_forms D db = .ok all) :
    search_forms_by_keyword D db keyword
        = .ok (all.filter (matchesKeyword (pyLower keyword))) ∧
      ∀ r, r ∈ all.filter (matchesKeyword (pyLower keyword)) ↔
        r ∈ all ∧ matchesKeyword (pyLower keyword) r = true := by
  constructor
  · unfold search_forms_by_keyword
    show (get_all_forms D db).bind _ = _
    rw [h]
    rfl
  · intro r
    exact List.mem_filter

/-- C4 witness: two stored records, one whose decrypted `ocr_text` contains
the text `LISINOPRIL` and one that does not; searching `lisinopril` returns
exactly the first (case-insensitive). -/
theorem search_is_substring_filter_witness :
    search_forms_by_keyword idBlock
        [{ id := 1, filename := "one.pdf",
           ocr_text := encrypt_data idBlock ivZero (some (strBytes "Patient takes LISINOPRIL daily")),
           extracted_fields := encrypt_data idBlock ivZero (some [123, 125]), created_at := 1,
           external_fax_id := none, fax_from_number := none, fax_to_number := none },
         { id := 2, filename := "two.pdf",
           ocr_text := encrypt_data idBlock ivZero (some (strBytes "aspirin order form")),
           extracted_fields := encrypt_data idBlock ivZero (some [123, 125]), created_at := 0,
           external_fax_id := none, fax_from_number := none, fax_to_number := none }]
        (strBytes "lisinopril")
      = .ok [{ id := 1, filename := "one.pdf",
               ocr_text := some (strBytes "Patient takes LISINOPRIL daily"),
               extracted_fields := some [123, 125], created_at := 1,
               external_fax_id := none, fax_from_number := none, fax_to_number := none }] := by
  rw [(search_is_substring_filter idBlock
    [{ id := 1, filename := "one.pdf",
       ocr_text := encrypt_data idBlock ivZero (some (strBytes "Patient takes LISINOPRIL daily")),
       extracted_fields := encrypt_data idBlock ivZero (some [123, 125]), created_at := 1,
       external_fax_id := none, fax_from_number := none, fax_to_number := none },
     { id := 2, filename := "two.pdf",
       ocr_text := encrypt_data idBlock ivZero (some (strBytes "aspirin order form")),
       extracted_fields := encrypt_data idBlock ivZero (some [123, 125]), created_at := 0,
       external_fax_id := none, fax_from_number := none, fax_to_number := none }]
    (strBytes "lisinopril")
    [{ id := 1, filename := "one.pdf",
       ocr_text := some (strBytes "Patient takes LISINOPRIL daily"),
       extracted_fields := some [123, 125], created_at := 1,
       external_fax_id := none, fax_from_number := none, fax_to_number := none },
     { id := 2, filename := "two.pdf",
       ocr_text := some (strBytes "aspirin order form"),
       extracted_fields := some [123, 125], created_at := 0,
       external_fax_id := none, fax_from_number := none, fax_to_number := none }]
    rfl).1]
  rfl

/-- The empty needle is a substring of every list. -/
theorem isSubstr_nil : ∀ l : List Nat, isSubstr ([] : List Nat) l = true
  | [] => rfl
  | _ :: _ => by simp [isSubstr, List.isPrefixOf]

/-- C10: searching with the empty keyword returns every stored record
(including records whose decrypted fields are absent), whenever the
decrypt-all step succeeds with the record list `all`. -/
theorem search_empty_keyword_returns_all (D : List Nat → List Nat) (db : FaxDB)
    (all : List FormRecord) (h : get_all_forms D db = .ok all) :
    search_forms_by_keyword D db [] = .ok all := by
  unfold search_forms_by_keyword
  show (get_all_forms D db).bind _ = _
  rw [h]
  show Except.ok (all.filter _) = _
  have hall : ∀ f ∈ all, matchesKeyword (pyLower []) f = true := by
    intro f _
    unfold matchesKeyword
    rw [show pyLower [] = [] from rfl, isSubstr_nil, isSubstr_nil]
    rfl
  rw [List.filter_eq_self.2 hall]

/-- C10 witness: the empty-keyword search on a concrete database holding one
record whose sensitive columns are absent (`NULL`) and one record with valid
tokens returns both records. -/
theorem search_empty_keyword_returns_all_witness :
    search_forms_by_keyword idBlock
        [{ id := 1, filename := "null.pdf", ocr_text := none,
           extracted_fields := none, created_at := 7,
           external_fax_id := none, fax_from_number := none, fax_to_number := none },
         { id := 2, filename := "real.pdf",
           ocr_text := encrypt_data idBlock ivZero (some [104, 105]),
           extracted_fields := encrypt_data idBlock ivZero (some [123, 125]), created_at := 4,
           external_fax_id := none, fax_from_number := none, fax_to_number := none }] []
      = .ok [{ id := 1, filename := "null.pdf", ocr_text := none,
               extracted_fields := none, created_at := 7,
               external_fax_id := none, fax_from_number := none, fax_to_number := none },
             { id := 2, filename := "real.pdf", ocr_text := some [104, 105],
               extracted_fields := some [123, 125], created_at := 4,
               external_fax_id := none, fax_from_number := none, fax_to_number := none }] :=
  search_empty_keyword_returns_all idBlock _ _ rfl

/-- Every stored id is strictly below the next assigned id. -/
theorem id_lt_nextId : ∀ (db : FaxDB) (r : StoredRow), r ∈ db → r.id < nextId db := by
  intro db
  have hfold : ∀ (l : FaxDB) (r : StoredRow), r ∈ l →
      r.id ≤ l.foldr (fun x m => max x.id m) 0 := by
    intro l
    induction l with
    | nil => intro r hr; cases hr
    | cons x xs ih =>
      intro r hr
      rcases List.mem_cons.1 hr with rfl | hr
      · simp only [List.foldr_cons]
        exact le_max_left _ _
      · have h2 := ih r hr
        simp only [List.foldr_cons]
        exact le_trans h2 (le_max_right _ _)
  intro r hr
  have := hfold db r hr
  unfold nextId
  omega

/-- Looking up the freshly assigned id after appending the new row finds the
new row. -/
theorem find?_append_new (db : FaxDB) (row : StoredRow) (n : Nat)
    (hne : ∀ r ∈ db, r.id ≠ n) (hrow : row.id = n) :
    (db ++ [row]).find? (fun r => r.id = n) = some row := by
  induction db with
  | nil => simp [List.find?, hrow]
  | cons x xs ih =>
    have hx : x.id ≠ n := hne x (by simp)
    rw [List.cons_append, List.find?_cons_of_neg _ (by simp [hx])]
    exact ih (fun r hr => hne r (by simp [hr]))

/-- C9: insert-then-get round trip: a successful `insert_form_data` of a
nonempty `ocr_text` and a (nonempty) fields JSON string returns the freshly
assigned id, and `get_form_by_id` on that id returns the record with exactly
the original plaintexts — the encryption at the storage boundary is invisible
to the reader.  The AES pair is assumed inverse, length-preserving and
byte-valued on 16-byte blocks of bytes, and the two fresh IVs are 16 bytes. -/
theorem insert_then_get_roundtrip (E D : List Nat → List Nat)
    (hInv : ∀ b, b.length = 16 → (∀ x ∈ b, x < 256) → D (E b) = b)
    (hLen : ∀ b, b.length = 16 → (∀ x ∈ b, x < 256) → (E b).length = 16)
    (hByte : ∀ b, b.length = 16 → (∀ x ∈ b, x < 256) → ∀ x ∈ E b, x < 256)
    (iv1 iv2 : List Nat) (hiv1 : iv1.length = 16) (hiv1B : ∀ x ∈ iv1, x < 256)
    (hiv2 : iv2.length = 16) (hiv2B : ∀ x ∈ iv2, x < 256)
    (db : FaxDB) (filename : String) (t fieldsJson : List Nat) (created_at : Nat)
    (m1 m2 m3 : Option String)
    (ht : t ≠ []) (htB : ∀ x ∈ t, x < 256)
    (hf : fieldsJson ≠ []) (hfB : ∀ x ∈ fieldsJson, x < 256) :
    (insert_form_data E iv1 iv2 true db filename (some t) fieldsJson
        created_at m1 m2 m3).1 = .ok (some (nextId db)) ∧
      get_form_by_id D
          (insert_form_data E iv1 iv2 true db filename (some t) fieldsJson
            created_at m1 m2 m3).2 (nextId db)
        = .ok (some { id := nextId db, filename := filename, ocr_text := some t,
                      extracted_fields := some fieldsJson, created_at := created_at,
                      external_fax_id := m1, fax_from_number := m2,
                      fax_to_number := m3 }) := by
  have hins : insert_form_data E iv1 iv2 true db filename (some t) fieldsJson
      created_at m1 m2 m3
      = (.ok (some (nextId db)),
         db ++ [{ id := nextId db, filename := filename,
                  ocr_text := encrypt_data E iv1 (some t),
                  extracted_fields := encrypt_data E iv2 (some fieldsJson),
                  created_at := created_at, external_fax_id := m1,
                  fax_from_number := m2, fax_to_number := m3 }]) := rfl
  refine ⟨by rw [hins], ?_⟩
  rw [hins]
  unfold get_form_by_id
  rw [find?_append_new db _ (nextId db)
    (fun r hr => Nat.ne_of_lt (id_lt_nextId db r hr)) rfl]
  show (decrypt_data D (encrypt_data E iv1 (some t))).bind _ = _
  rw [decrypt_encrypt_ok E D hInv hLen hByte iv1 hiv1 hiv1B t ht htB]
  show (decrypt_data D (encrypt_data E iv2 (some fieldsJson))).bind _ = _
  rw [decrypt_encrypt_ok E D hInv hLen hByte iv2 hiv2 hiv2B fieldsJson hf hfB]
  rfl

/-- C9 witness: the insert-then-get round trip on the empty database with the
identity block cipher, concrete IVs, plaintext bytes `hi` and fields JSON
bytes of the empty object. -/
theorem insert_then_get_roundtrip_witness :
    (insert_form_data idBlock ivZero ivOne true [] "w.pdf" (some [104, 105])
        [123, 125] 9 none none none).1 = .ok (some 1) ∧
      get_form_by_id idBlock
          (insert_form_data idBlock ivZero ivOne true [] "w.pdf" (some [104, 105])
            [123, 125] 9 none none none).2 1
        = .ok (some { id := 1, filename := "w.pdf", ocr_text := some [104, 105],
                      extracted_fields := some [123, 125], created_at := 9,
                      external_fax_id := none, fax_from_number := none,
                      fax_to_number := none }) :=
  insert_then_get_roundtrip idBlock idBlock
    (fun _ _ _ => rfl) (fun _ hb _ => hb) (fun _ _ hB => hB)
    ivZero ivOne (by decide) (by decide) (by decide) (by decide)
    [] "w.pdf" [104, 105] [123, 125] 9 none none none
    (by decide) (by decide) (by decide) (by decide)

/-- C8 counterexample: on a failing write, `insert_form_data` returns the
Python value `None` (embedded as `.ok none`) — it does not fail with a
`StoreError` (nor with any exception: the bare `except Exception` swallows
the sqlite error), and it also does not return an assigned id. -/
theorem insert_form_data_no_storeError_cex :
    (insert_form_data idBlock ivZero ivOne false [] "f.pdf" (some [104])
        [123, 125] 0 none none none).1 = .ok none ∧
      (insert_form_data idBlock ivZero ivOne false [] "f.pdf" (some [104])
        [123, 125] 0 none none none).2 = [] :=
  ⟨rfl, rfl⟩

/-- C8 (amended): `insert_form_data` encrypts `ocr_text` and the fields JSON
string before writing; on a successful write it appends exactly the row with
the two encrypted tokens and returns the newly assigned id, and on a write
failure it catches the exception, returns `None`, and commits nothing (the
database is unchanged). -/
theorem insert_form_data_contract (E : List Nat → List Nat) (iv1 iv2 : List Nat)
    (db : FaxDB) (filename : String) (ocr_text : Option (List Nat))
    (fieldsJson : List Nat) (created_at : Nat) (m1 m2 m3 : Option String) :
    insert_form_data E iv1 iv2 true db filename ocr_text fieldsJson created_at m1 m2 m3
        = (.ok (some (nextId db)),
           db ++ [{ id := nextId db, filename := filename,
                    ocr_text := encrypt_data E iv1 ocr_text,
                    extracted_fields := encrypt_data E iv2 (some fieldsJson),
                    created_at := created_at, external_fax_id := m1,
                    fax_from_number := m2, fax_to_number := m3 }]) ∧
      insert_form_data E iv1 iv2 false db filename ocr_text fieldsJson created_at m1 m2 m3
        = (.ok none, db) :=
  ⟨rfl, rfl⟩

/-- C5: template precedence: a declared template other than `default` (in
particular the specific known values) ignores the hint; the declared
`default` with a truthy hint resolves by lower-casing the hint and matching
the provider-form keyword first, then the two over-the-counter keywords,
first match winning and no match leaving the default. -/
theorem resolveTemplate_precedence :
    (∀ (template : List Char) (hint : Option (List Char)), template ≠ "default".toList →
        resolveTemplate template hint = template) ∧
      (∀ h : List Char, h ≠ [] →
        resolveTemplate "default".toList (some h)
          = (if isSubstr "provider fax form".toList (h.map Char.toLower) then
               "provider_fax_form".toList
             else if isSubstr "over-the-counter".toList (h.map Char.toLower)
                 || isSubstr "otc".toList (h.map Char.toLower) then
               "otc_fax_form".toList
             else "default".toList)) := by
  constructor
  · intro template hint hne
    unfold resolveTemplate
    rw [if_neg (fun hc => hne hc.1)]
  · intro h hne
    unfold resolveTemplate
    rw [if_pos ⟨rfl, by simp, by simp [hne]⟩]
    rfl

/-- C5 witness: a specific declared template (`otc_fax_form`) is kept even
with a provider-style hint, and a declared `default` with the hint text
`Provider Fax Form 2024` resolves to `provider_fax_form`. -/
theorem resolveTemplate_precedence_witness :
    resolveTemplate "otc_fax_form".toList (some "Provider Fax Form".toList)
        = "otc_fax_form".toList ∧
      resolveTemplate "default".toList (some "Provider Fax Form 2024".toList)
        = "provider_fax_form".toList := by
  constructor
  · exact resolveTemplate_precedence.1 "otc_fax_form".toList
      (some "Provider Fax Form".toList) (by decide)
  · rw [resolveTemplate_precedence.2 "Provider Fax Form 2024".toList (by decide)]
    rfl

/-- C6: when the Google Cloud Vision API is requested and its wrapper fails
(returns `None`), and the Gemini branch did not already return, the content
extractor returns the Tesseract OCR text tagged `success_tesseract_fallback`
(the spec's `success_ocr_fallback`) without raising; and every status it can
ever return belongs to the fixed status vocabulary. -/
theorem extractor_fallback_and_status_vocabulary :
    (∀ (env : ExtractorEnv) (ug uv key : Bool),
        (extract_content_from_pdf env ug uv key).2 ∈ extractorStatuses) ∧
      (∀ (env : ExtractorEnv) (ug uv key : Bool) (pdfBytes : List Nat),
        env.fileBytes = some pdfBytes →
        (ug && key && env.geminiConfigureOk) = false →
        uv = true → env.visionText = none →
        extract_content_from_pdf env ug uv key
          = (.text env.tesseractText, "success_tesseract_fallback")) := by
  constructor
  · intro env ug uv key
    cases hfb : env.fileBytes with
    | none => simp [extract_content_from_pdf, hfb, extractorStatuses]
    | some b =>
      by_cases hg : (ug && key && env.geminiConfigureOk) = true
      · simp [extract_content_from_pdf, hfb, hg, extractorStatuses]
      · cases uv with
        | false => simp [extract_content_from_pdf, hfb, hg, extractorStatuses]
        | true =>
          cases hv : env.visionText with
          | none => simp [extract_content_from_pdf, hfb, hg, hv, extractorStatuses]
          | some v => simp [extract_content_from_pdf, hfb, hg, hv, extractorStatuses]
  · intro env ug uv key pdfBytes hfb hg huv hv
    subst huv
    simp [extract_content_from_pdf, hfb, hg, hv]

/-- C6 witness: the fallback theorem and the vocabulary theorem at a concrete
environment whose vision wrapper fails, with vision requested and the Gemini
path not requested. -/
theorem extractor_fallback_and_status_vocabulary_witness :
    extract_content_from_pdf
        { fileBytes := some [1, 2], readErrDetail := "",
          geminiConfigureOk := true, visionText := none,
          tesseractText := "SCAN TEXT" } false true true
      = (.text "SCAN TEXT", "success_tesseract_fallback") ∧
      (extract_content_from_pdf
        { fileBytes := some [1, 2], readErrDetail := "",
          geminiConfigureOk := true, visionText := none,
          tesseractText := "SCAN TEXT" } false true true).2 ∈ extractorStatuses := by
  constructor
  · exact extractor_fallback_and_status_vocabulary.2
      { fileBytes := some [1, 2], readErrDetail := "",
        geminiConfigureOk := true, visionText := none,
        tesseractText := "SCAN TEXT" } false true true [1, 2] rfl rfl rfl rfl
  · exact extractor_fallback_and_status_vocabulary.1
      { fileBytes := some [1, 2], readErrDetail := "",
        geminiConfigureOk := true, visionText := none,
        tesseractText := "SCAN TEXT" } false true true

/-- C7: when the document cannot be opened or read at all, the extractor
returns the read-error message tagged `error_file_read` immediately, for
every combination of requested strategies — no extraction strategy or
fallback is attempted afterwards. -/
theorem extractor_file_read_error_immediate (env : ExtractorEnv)
    (ug uv key : Bool) (h : env.fileBytes = none) :
    extract_content_from_pdf env ug uv key
      = (.text ("Error reading PDF file: " ++ env.readErrDetail), "error_file_read") := by
  unfold extract_content_from_pdf
  rw [h]

/-- C7 witness: the file-read failure result at a concrete unreadable
environment with every strategy requested. -/
theorem extractor_file_read_error_immediate_witness :
    extract_content_from_pdf
        { fileBytes := none, readErrDetail := "no such file",
          geminiConfigureOk := true, visionText := some "v",
          tesseractText := "t" } true true true
      = (.text "Error reading PDF file: no such file", "error_file_read") :=
  extractor_file_read_error_immediate
    { fileBytes := none, readErrDetail := "no such file",
      geminiConfigureOk := true, visionText := some "v",
      tesseractText := "t" } true true true rfl
